import Mathlib

/-!
Formal model of the `new_brain` repository's Adaptive Memory Retention and
Hybrid Retrieval Engine.

The repository ships a SQL schema with a `memories` table and a
`match_memories` similarity-search function (src/unnamed/part_002), plus UI
components.  The schema and `match_memories` are embedded below over `ℚ`
(SQL floats and timestamps become rationals so that concrete queries are
decidable; the pgvector cosine-distance operator `<=>` belongs to an external
extension and is kept as an explicit function parameter `dist`).  The
Retention Scorer, Resurfacing Selector and Reinforcement Updater are not in
the sources; they are modelled from the spec over `ℝ`.
-/

attribute [local semireducible] Rat.add Rat.sub Rat.mul

/-- A row of the `memories` table (src/unnamed/part_002): `id bigint`,
`user_id uuid not null` (modelled as `ℕ`), `raw_text text not null`,
`summary text not null`, `embedding vector(1536)` — nullable, hence `Option`,
`importance float not null`, `access_count int not null`,
`summary_count int not null`, `created_at timestamptz not null`,
`last_accessed_at timestamptz not null` (timestamps as `ℚ`). -/
structure MemoryRow where
  id : ℤ
  user_id : ℕ
  raw_text : String
  summary : String
  embedding : Option (List ℚ)
  importance : ℚ
  access_count : ℕ
  summary_count : ℕ
  created_at : ℚ
  last_accessed_at : ℚ
deriving DecidableEq

/-- The dimension declared by the `embedding vector(1536)` column. -/
def embeddingDim : ℕ := 1536

/-- The WHERE clause of `match_memories`:
`m.user_id = p_user_id AND 1 - (m.embedding <=> query_embedding) > match_threshold`.
When `embedding` is NULL the comparison evaluates to SQL NULL, which is not
true, so the row is excluded.  `dist` stands for the external pgvector
cosine-distance operator `<=>`. -/
def matchWhere (dist : List ℚ → List ℚ → ℚ) (query_embedding : List ℚ)
    (match_threshold : ℚ) (p_user_id : ℕ) (m : MemoryRow) : Bool :=
  match m.embedding with
  | none => false
  | some e =>
    m.user_id == p_user_id && decide (1 - dist e query_embedding > match_threshold)

/-- The ORDER BY key of `match_memories`: the raw distance
`m.embedding <=> query_embedding`, ascending.  Rows with a NULL embedding are
already excluded by the WHERE clause, so the value chosen for `none` is
irrelevant to the result. -/
def orderKey (dist : List ℚ → List ℚ → ℚ) (query_embedding : List ℚ)
    (m : MemoryRow) : ℚ :=
  match m.embedding with
  | none => 0
  | some e => dist e query_embedding

/-- The SQL function `match_memories (query_embedding, match_threshold,
match_count, p_user_id)` of src/unnamed/part_002: filter the table by owner
and strict similarity threshold, order by raw distance ascending, limit to
`match_count`, and return each row paired with its
`similarity = 1 - (embedding <=> query_embedding)` column.  The SQL gives no
tie-break beyond the distance key; ties are realised here in table order
(insertion sort is stable), one admissible execution of the unspecified SQL
tie order. -/
def match_memories (dist : List ℚ → List ℚ → ℚ) (rows : List MemoryRow)
    (query_embedding : List ℚ) (match_threshold : ℚ) (match_count : ℕ)
    (p_user_id : ℕ) : List (MemoryRow × ℚ) :=
  ((((rows.filter
        (matchWhere dist query_embedding match_threshold p_user_id)).insertionSort
      (fun a b =>
        orderKey dist query_embedding a ≤ orderKey dist query_embedding b)).map
    (fun m => (m, 1 - orderKey dist query_embedding m))).take match_count)

/-- Row validity imposed by the DDL: a non-null `embedding` has the declared
dimension `vector(1536)`; the NOT NULL constraints of the remaining columns
are enforced by the field types. -/
def schemaValidRow (m : MemoryRow) : Bool :=
  match m.embedding with
  | none => true
  | some e => e.length == embeddingDim

/-- An INSERT into `memories` supplying `{user_id, raw_text, summary,
embedding}`; every other column takes its DDL default (src/unnamed/part_002):
`importance = 1.0`, `access_count = 0`, `summary_count = 0`, and both
`created_at` and `last_accessed_at` default to `now()` — the same transaction
timestamp, here the single parameter `now`.  `id` is assigned by the identity
column. -/
def ingest (id : ℤ) (user_id : ℕ) (raw_text summary : String)
    (embedding : Option (List ℚ)) (now : ℚ) : MemoryRow :=
  { id := id, user_id := user_id, raw_text := raw_text, summary := summary,
    embedding := embedding, importance := 1, access_count := 0,
    summary_count := 0, created_at := now, last_accessed_at := now }

/-- Errors of the Memory Store (spec §7). -/
inductive StoreError where
  | DimensionMismatch
  | NotFound
deriving DecidableEq

/-- Modelled from the spec: the Memory Store's `put` operation is not in src
(only the schema is).  Spec §4.1: "`put(memory)` inserts or updates a Memory,
rejecting any vector whose dimension mismatches the constant
(`DimensionMismatch` error)", and §7: the rejection happens before any store
mutation — here an `.error` result leaves the caller's store untouched.  A
Memory carrying no vector cannot match the constant dimension and is likewise
rejected. -/
def put (store : List MemoryRow) (m : MemoryRow) :
    Except StoreError (List MemoryRow) :=
  match m.embedding with
  | none => .error .DimensionMismatch
  | some e =>
    if e.length = embeddingDim then
      .ok ((store.filter (fun r => r.id != m.id)) ++ [m])
    else
      .error .DimensionMismatch

/-- A concrete squared-euclidean distance, standing in for the external
`<=>` operator in concrete evaluations. -/
def distW : List ℚ → List ℚ → ℚ := fun a b =>
  (List.zipWith (fun x y => (x - y) * (x - y)) a b).sum

/-- Concrete row: owner 7, embedding `[1, 0]`, created at time 1. -/
def rowOld : MemoryRow :=
  { id := 1, user_id := 7, raw_text := "o", summary := "o",
    embedding := some [1, 0], importance := 1, access_count := 0,
    summary_count := 0, created_at := 1, last_accessed_at := 1 }

/-- Concrete row: owner 7, the same embedding as `rowOld`, created at time 2. -/
def rowNew : MemoryRow :=
  { id := 2, user_id := 7, raw_text := "n", summary := "n",
    embedding := some [1, 0], importance := 1, access_count := 0,
    summary_count := 0, created_at := 2, last_accessed_at := 2 }

/-- Concrete row: owner 7, NULL embedding. -/
def rowNull : MemoryRow :=
  { id := 3, user_id := 7, raw_text := "x", summary := "x",
    embedding := none, importance := 1, access_count := 0,
    summary_count := 0, created_at := 3, last_accessed_at := 3 }

/-- Concrete row: owner 9 (a different owner), embedding `[1, 0]`. -/
def rowOther : MemoryRow :=
  { id := 4, user_id := 9, raw_text := "b", summary := "b",
    embedding := some [1, 0], importance := 1, access_count := 0,
    summary_count := 0, created_at := 4, last_accessed_at := 4 }

/-- Concrete row whose embedding has dimension 3 instead of 1536. -/
def rowBadDim : MemoryRow :=
  { id := 5, user_id := 7, raw_text := "c", summary := "c",
    embedding := some [1, 2, 3], importance := 1, access_count := 0,
    summary_count := 0, created_at := 5, last_accessed_at := 5 }

/-- Configuration constant of the retention model (spec §4.2): the base
stability in days, fixed process-wide at the spec's example value. -/
noncomputable def baseStability : ℝ := 7

/-- Configuration constant (spec §4.2): the importance cap. -/
noncomputable def importanceCap : ℝ := 5

/-- Configuration constant (spec §4.5): the fixed reinforcement increment. -/
noncomputable def reinforceIncrement : ℝ := 1 / 10

/-- Configuration constant (spec §4.4): the resurfacing threshold. -/
noncomputable def resurfaceThreshold : ℝ := 1 / 2

/-- Configuration constant (spec §4.4): the resurfacing importance floor. -/
noncomputable def resurfaceImportanceFloor : ℝ := 1

/-- Modelled from the spec: the in-core Memory record consumed by the
Retention Scorer, Resurfacing Selector and Reinforcement Updater (spec §3);
none of those components is in src.  Importance and timestamps are real
numbers, timestamps measured in days. -/
structure Mem where
  id : ℕ
  owner_id : ℕ
  importance : ℝ
  access_count : ℕ
  created_at : ℝ
  last_accessed_at : ℝ

/-- Modelled from the spec: the Retention Scorer's forgetting curve
(spec §4.2), which is not in src.  `retention importance access_count
elapsed_days = importance_normalized * exp (-(elapsed_days / stability))`
with `stability = base_stability * (1 + access_count)` and
`importance_normalized = min importance importance_cap / importance_cap`. -/
noncomputable def retention (importance : ℝ) (access_count : ℕ)
    (elapsed_days : ℝ) : ℝ :=
  (min importance importanceCap / importanceCap) *
    Real.exp (-(elapsed_days / (baseStability * (1 + (access_count : ℝ)))))

/-- Modelled from the spec: the Retention Scorer's entry point
`score(importance, access_count, last_accessed_at, now)` (spec §4.2), with
`elapsed_days = max 0 (now - last_accessed_at)`. -/
noncomputable def score (importance : ℝ) (access_count : ℕ)
    (last_accessed_at now : ℝ) : ℝ :=
  retention importance access_count (max 0 (now - last_accessed_at))

/-- The retention score of a Memory record at evaluation time `now`. -/
noncomputable def scoreOf (now : ℝ) (m : Mem) : ℝ :=
  score m.importance m.access_count m.last_accessed_at now

/-- Modelled from the spec: one call of the Reinforcement Updater
(spec §4.5), which is not in src.  The three fields are computed in a single
record update, the embedding of "applied atomically as a single unit":
`access_count += 1`; `last_accessed_at = now` only if `now` is strictly
later; `importance` grows by the fixed increment, capped at
`importance_cap`. -/
noncomputable def reinforceMem (m : Mem) (now : ℝ) : Mem :=
  { m with
    access_count := m.access_count + 1,
    last_accessed_at :=
      if m.last_accessed_at < now then now else m.last_accessed_at,
    importance := min (m.importance + reinforceIncrement) importanceCap }

/-- A sequence of reinforcement calls, applied in order. -/
noncomputable def reinforceSeq (m : Mem) (nows : List ℝ) : Mem :=
  nows.foldl reinforceMem m

/-- Modelled from the spec: the Resurfacing Selector's qualification
predicate (spec §4.4): `retention_score < resurface_threshold` and
`importance ≥ resurface_importance_floor`. -/
def resurfaceQualifies (now : ℝ) (m : Mem) : Prop :=
  scoreOf now m < resurfaceThreshold ∧
    resurfaceImportanceFloor ≤ m.importance

/-- The selection order of the Resurfacing Selector (spec §4.4):
retention_score ascending, ties broken by created_at ascending. -/
def resurfaceLE (now : ℝ) (a b : Mem) : Prop :=
  scoreOf now a < scoreOf now b ∨
    (scoreOf now a = scoreOf now b ∧ a.created_at ≤ b.created_at)

open Classical in
/-- Modelled from the spec: the Resurfacing Selector (spec §4.4), which is
not in src.  An independent pass over the owner's whole Memory set: keep the
qualifying Memories, sort them by retention_score ascending with ties by
created_at ascending, and return the first `N`. -/
noncomputable def resurfaceSelect (mems : List Mem) (now : ℝ) (N : ℕ) :
    List Mem :=
  ((mems.filter (fun m => decide (resurfaceQualifies now m))).insertionSort
    (resurfaceLE now)).take N

/-- Modelled from the spec: running the Selector against a store returns the
selection and the persisted store, which it leaves unchanged (spec §4.4:
"read-only with respect to persisted state"). -/
noncomputable def resurfaceRun (mems : List Mem) (now : ℝ) (N : ℕ) :
    List Mem × List Mem :=
  (resurfaceSelect mems now N, mems)

/-- Concrete in-core Memory: importance 2, never accessed, timestamps 0. -/
noncomputable def memW : Mem :=
  { id := 1, owner_id := 7, importance := 2, access_count := 0,
    created_at := 0, last_accessed_at := 0 }

/-- C1: every row returned by `match_memories` carries the similarity column
`1 - dist embedding query_embedding`, that similarity is strictly greater
than `match_threshold` (the threshold is compared against the similarity, not
the raw distance), and at most `match_count` rows are returned. -/
theorem match_memories_threshold_topk (dist : List ℚ → List ℚ → ℚ)
    (rows : List MemoryRow) (q : List ℚ) (t : ℚ) (k : ℕ) (uid : ℕ) :
    (∀ p ∈ match_memories dist rows q t k uid,
        ∃ e, p.1.embedding = some e ∧ p.2 = 1 - dist e q ∧ t < p.2) ∧
      (match_memories dist rows q t k uid).length ≤ k := by
  constructor
  · intro p hp
    have hp' := List.mem_of_mem_take hp
    obtain ⟨m, hm, rfl⟩ := List.mem_map.1 hp'
    have hw : matchWhere dist q t uid m = true :=
      (List.mem_filter.1 ((List.mem_insertionSort _).1 hm)).2
    obtain ⟨e, hme⟩ : ∃ e, m.embedding = some e := by
      cases h : m.embedding with
      | none => simp [matchWhere, h] at hw
      | some e => exact ⟨e, rfl⟩
    simp only [matchWhere, hme, Bool.and_eq_true, beq_iff_eq,
      decide_eq_true_eq, gt_iff_lt] at hw
    refine ⟨e, hme, ?_, ?_⟩
    · simp [orderKey, hme]
    · simp only [orderKey, hme]
      exact hw.2
  · unfold match_memories
    exact List.length_take_le _ _

/-- C1 witness: a concrete query against a two-row store. -/
theorem match_memories_threshold_topk_witness :
    (∃ e, (rowOld, (1 : ℚ)).1.embedding = some e ∧
        (rowOld, (1 : ℚ)).2 = 1 - distW e [1, 0] ∧ (0 : ℚ) < (rowOld, (1 : ℚ)).2) ∧
      (match_memories distW [rowOld, rowNull] [1, 0] 0 10 7).length ≤ 10 :=
  ⟨(match_memories_threshold_topk distW [rowOld, rowNull] [1, 0] 0 10 7).1
      (rowOld, 1) (by decide),
    (match_memories_threshold_topk distW [rowOld, rowNull] [1, 0] 0 10 7).2⟩

/-- C2: every row returned by `match_memories` is owned by the requested
`p_user_id` and is an unmodified element of the stored table: the SELECT is
read-only, so a query for one owner never returns nor mutates another
owner's Memory. -/
theorem match_memories_owner_isolation (dist : List ℚ → List ℚ → ℚ)
    (rows : List MemoryRow) (q : List ℚ) (t : ℚ) (k : ℕ) (uid : ℕ)
    (p : MemoryRow × ℚ) (hp : p ∈ match_memories dist rows q t k uid) :
    p.1.user_id = uid ∧ p.1 ∈ rows := by
  have hp' := List.mem_of_mem_take hp
  obtain ⟨m, hm, rfl⟩ := List.mem_map.1 hp'
  have hmf := (List.mem_insertionSort _).1 hm
  have hw : matchWhere dist q t uid m = true := (List.mem_filter.1 hmf).2
  refine ⟨?_, (List.mem_filter.1 hmf).1⟩
  obtain ⟨e, hme⟩ : ∃ e, m.embedding = some e := by
    cases h : m.embedding with
    | none => simp [matchWhere, h] at hw
    | some e => exact ⟨e, rfl⟩
  simp only [matchWhere, hme, Bool.and_eq_true, beq_iff_eq] at hw
  exact hw.1

/-- C2 witness: a store holding rows of owners 7 and 9, queried for owner 7. -/
theorem match_memories_owner_isolation_witness :
    (rowOld, (1 : ℚ)).1.user_id = 7 ∧ (rowOld, (1 : ℚ)).1 ∈ [rowOld, rowOther] :=
  match_memories_owner_isolation distW [rowOld, rowOther] [1, 0] 0 10 7
    (rowOld, 1) (by decide)

/-- C3 (amended): the result of `match_memories` is ordered by similarity
descending (the SQL orders by raw distance ascending, and similarity is
`1 - distance`); the SQL specifies no further key, so equal-similarity rows
come back in an unspecified order rather than by `created_at` descending. -/
theorem match_memories_sorted_by_similarity (dist : List ℚ → List ℚ → ℚ)
    (rows : List MemoryRow) (q : List ℚ) (t : ℚ) (k : ℕ) (uid : ℕ) :
    List.Sorted (fun a b : MemoryRow × ℚ => b.2 ≤ a.2)
      (match_memories dist rows q t k uid) := by
  unfold match_memories
  apply List.Pairwise.sublist (List.take_sublist _ _)
  rw [List.pairwise_map]
  have hs : List.Sorted (fun a b => orderKey dist q a ≤ orderKey dist q b)
      ((rows.filter (matchWhere dist q t uid)).insertionSort
        (fun a b => orderKey dist q a ≤ orderKey dist q b)) := by
    haveI : IsTotal MemoryRow (fun a b => orderKey dist q a ≤ orderKey dist q b) :=
      ⟨fun a b => le_total _ _⟩
    haveI : IsTrans MemoryRow (fun a b => orderKey dist q a ≤ orderKey dist q b) :=
      ⟨fun a b c hab hbc => le_trans hab hbc⟩
    exact List.sorted_insertionSort _ _
  exact hs.imp (fun h => sub_le_sub_left h 1)

/-- C3 counterexample: two rows with identical embeddings (hence identical
similarity) are returned in table order — the older `created_at` first —
refuting the claimed `created_at`-descending tie-break, which the SQL does
not implement. -/
theorem match_memories_tiebreak_counterexample :
    match_memories distW [rowOld, rowNew] [1, 0] 0 10 7 =
        [(rowOld, 1), (rowNew, 1)] ∧
      rowOld.created_at < rowNew.created_at ∧
      ¬ List.Sorted
          (fun a b : MemoryRow × ℚ =>
            b.2 < a.2 ∨ (a.2 = b.2 ∧ b.1.created_at ≤ a.1.created_at))
          (match_memories distW [rowOld, rowNew] [1, 0] 0 10 7) := by
  refine ⟨by decide, by decide, by decide⟩

/-- C10: `match_memories` never returns a row whose `embedding` column is
NULL: the strict filter `1 - (embedding <=> query_embedding) > threshold`
evaluates to SQL NULL, not true, on such rows, although the schema permits
them. -/
theorem match_memories_excludes_null_embedding (dist : List ℚ → List ℚ → ℚ)
    (rows : List MemoryRow) (q : List ℚ) (t : ℚ) (k : ℕ) (uid : ℕ)
    (p : MemoryRow × ℚ) (hp : p ∈ match_memories dist rows q t k uid) :
    p.1.embedding ≠ none := by
  have hp' := List.mem_of_mem_take hp
  obtain ⟨m, hm, rfl⟩ := List.mem_map.1 hp'
  have hw : matchWhere dist q t uid m = true :=
    (List.mem_filter.1 ((List.mem_insertionSort _).1 hm)).2
  intro hnone
  simp only at hnone
  simp [matchWhere, hnone] at hw

/-- C10 witness: a store holding a NULL-embedding row next to a normal one. -/
theorem match_memories_excludes_null_embedding_witness :
    (rowOld, (1 : ℚ)).1.embedding ≠ none :=
  match_memories_excludes_null_embedding distW [rowOld, rowNull] [1, 0] 0 10 7
    (rowOld, 1) (by decide)

/-- C8 counterexample: a row with a NULL embedding satisfies every constraint
the DDL places on the `memories` table, so the schema admits a stored Memory
that lacks an embedding. -/
theorem schema_allows_null_embedding :
    schemaValidRow rowNull = true ∧ rowNull.embedding = none := ⟨rfl, rfl⟩

/-- C8 (amended): a present embedding on a schema-valid row has dimension
exactly 1536, and `put` rejects with `DimensionMismatch` — returning an error
and leaving the caller's store untouched — whenever the embedding is absent
or of a different dimension; a successful `put` certifies the dimension. -/
theorem put_dimension_guard (store : List MemoryRow) (m : MemoryRow) :
    (schemaValidRow m = true → ∀ e, m.embedding = some e →
      e.length = embeddingDim) ∧
    (∀ e, m.embedding = some e → e.length ≠ embeddingDim →
      put store m = .error .DimensionMismatch) ∧
    (m.embedding = none → put store m = .error .DimensionMismatch) ∧
    (∀ s, put store m = .ok s →
      ∃ e, m.embedding = some e ∧ e.length = embeddingDim) := by
  refine ⟨?_, ?_, ?_, ?_⟩
  · intro hv e he
    simpa [schemaValidRow, he] using hv
  · intro e he hne
    simp [put, he, hne]
  · intro hnone
    simp [put, hnone]
  · intro s hs
    cases he : m.embedding with
    | none => simp [put, he] at hs
    | some e =>
      refine ⟨e, rfl, ?_⟩
      by_contra hne
      simp [put, he, hne] at hs

/-- C8 witness: `put` rejects a 3-dimensional embedding into an empty store. -/
theorem put_dimension_guard_witness :
    put [] rowBadDim = .error .DimensionMismatch :=
  (put_dimension_guard [] rowBadDim).2.1 [1, 2, 3] rfl (by decide)

/-- C9: a freshly ingested Memory takes the DDL defaults: `importance = 1.0`,
`access_count = 0`, `summary_count = 0`, and `last_accessed_at` equal to
`created_at` — both columns default to `now()`, the same transaction
timestamp — hence `created_at ≤ last_accessed_at` holds at creation. -/
theorem ingest_defaults (id : ℤ) (uid : ℕ) (rt sm : String)
    (emb : Option (List ℚ)) (now : ℚ) :
    (ingest id uid rt sm emb now).importance = 1 ∧
    (ingest id uid rt sm emb now).access_count = 0 ∧
    (ingest id uid rt sm emb now).summary_count = 0 ∧
    (ingest id uid rt sm emb now).last_accessed_at =
      (ingest id uid rt sm emb now).created_at ∧
    (ingest id uid rt sm emb now).created_at ≤
      (ingest id uid rt sm emb now).last_accessed_at :=
  ⟨rfl, rfl, rfl, rfl, le_refl _⟩

lemma importanceCap_pos : (0 : ℝ) < importanceCap := by norm_num [importanceCap]

lemma baseStability_pos : (0 : ℝ) < baseStability := by norm_num [baseStability]

lemma stability_pos (ac : ℕ) : (0 : ℝ) < baseStability * (1 + (ac : ℝ)) :=
  mul_pos baseStability_pos (by positivity)

/-- C4: for non-negative importance the retention score always lies in the
closed unit interval, whatever the access count and timestamps. -/
theorem score_in_unit_interval (imp : ℝ) (ac : ℕ) (last now : ℝ)
    (himp : 0 ≤ imp) :
    0 ≤ score imp ac last now ∧ score imp ac last now ≤ 1 := by
  unfold score retention
  set e := max 0 (now - last) with he
  have hen : 0 ≤ e := le_max_left _ _
  have hnorm0 : 0 ≤ min imp importanceCap / importanceCap :=
    div_nonneg (le_min himp importanceCap_pos.le) importanceCap_pos.le
  have hnorm1 : min imp importanceCap / importanceCap ≤ 1 :=
    (div_le_one importanceCap_pos).2 (min_le_right _ _)
  have hexp0 : 0 < Real.exp (-(e / (baseStability * (1 + (ac : ℝ))))) :=
    Real.exp_pos _
  have hexp1 : Real.exp (-(e / (baseStability * (1 + (ac : ℝ))))) ≤ 1 :=
    Real.exp_le_one_iff.2 (neg_nonpos.2 (div_nonneg hen (stability_pos ac).le))
  exact ⟨mul_nonneg hnorm0 hexp0.le, mul_le_one₀ hnorm1 hexp0.le hexp1⟩

/-- C4 witness: a freshly important memory scored twelve days after access. -/
theorem score_in_unit_interval_witness :
    (0 : ℝ) ≤ 1 ∧ (0 ≤ score 1 0 2 14 ∧ score 1 0 2 14 ≤ 1) :=
  ⟨by norm_num, score_in_unit_interval 1 0 2 14 (by norm_num)⟩

/-- C5 counterexample: at importance 0 — in the claim's stated domain
`importance ≥ 0` — the retention score is constantly 0, so it is not
strictly decreasing in elapsed time. -/
theorem score_not_strictly_decreasing_at_zero_importance :
    ¬ score 0 0 0 1 < score 0 0 0 0 := by
  have h : ∀ x : ℝ, score 0 0 0 x = 0 := by
    intro x
    unfold score retention
    rw [min_eq_left importanceCap_pos.le, zero_div, zero_mul]
  rw [h 1, h 0]
  exact lt_irrefl 0

/-- C5 (amended): for strictly positive importance the retention curve is
strictly decreasing in elapsed time; at elapsed time 0 it equals
`importance_normalized`; and for any non-negative importance and elapsed
time, a higher access count never yields a lower retention score. -/
theorem retention_monotonicity (imp : ℝ) (ac ac1 ac2 : ℕ) (e e1 e2 : ℝ)
    (himp : 0 < imp) (he1 : 0 ≤ e1) (h12 : e1 < e2) (hac : ac1 ≤ ac2)
    (he : 0 ≤ e) :
    retention imp ac e2 < retention imp ac e1 ∧
      retention imp ac 0 = min imp importanceCap / importanceCap ∧
      retention imp ac1 e ≤ retention imp ac2 e := by
  have hnormpos : 0 < min imp importanceCap / importanceCap :=
    div_pos (lt_min himp importanceCap_pos) importanceCap_pos
  refine ⟨?_, ?_, ?_⟩
  · unfold retention
    apply mul_lt_mul_of_pos_left _ hnormpos
    apply Real.exp_lt_exp.2
    apply neg_lt_neg
    exact (div_lt_div_iff_of_pos_right (stability_pos ac)).2 h12
  · unfold retention
    rw [zero_div, neg_zero, Real.exp_zero, mul_one]
  · unfold retention
    apply mul_le_mul_of_nonneg_left _ hnormpos.le
    apply Real.exp_le_exp.2
    apply neg_le_neg
    have hcast : (ac1 : ℝ) ≤ (ac2 : ℝ) := Nat.cast_le.2 hac
    have hmono : baseStability * (1 + (ac1 : ℝ)) ≤
        baseStability * (1 + (ac2 : ℝ)) :=
      mul_le_mul_of_nonneg_left (by linarith) baseStability_pos.le
    exact div_le_div_of_nonneg_left he (stability_pos ac1) hmono

/-- C5 witness: importance 1, elapsed times 0 and 1, access counts 0 and 1. -/
theorem retention_monotonicity_witness :
    ((0 : ℝ) < 1 ∧ (0 : ℝ) ≤ 0 ∧ (0 : ℝ) < 1 ∧ (0 : ℕ) ≤ 1 ∧ (0 : ℝ) ≤ 1) ∧
      (retention 1 0 1 < retention 1 0 0 ∧
        retention 1 0 0 = min 1 importanceCap / importanceCap ∧
        retention 1 0 1 ≤ retention 1 1 1) :=
  ⟨⟨by norm_num, by norm_num, by norm_num, by norm_num, by norm_num⟩,
    retention_monotonicity 1 0 0 1 1 0 1 (by norm_num) (by norm_num)
      (by norm_num) (by norm_num) (by norm_num)⟩

lemma reinforceMem_mono (m : Mem) (now : ℝ)
    (hcap : m.importance ≤ importanceCap) :
    m.access_count ≤ (reinforceMem m now).access_count ∧
      m.importance ≤ (reinforceMem m now).importance ∧
      m.last_accessed_at ≤ (reinforceMem m now).last_accessed_at ∧
      (reinforceMem m now).importance ≤ importanceCap := by
  refine ⟨Nat.le_succ _, ?_, ?_, min_le_right _ _⟩
  · exact le_min
      (le_add_of_nonneg_right (by norm_num [reinforceIncrement])) hcap
  · by_cases h : m.last_accessed_at < now
    · simp only [reinforceMem, if_pos h]
      exact h.le
    · simp only [reinforceMem, if_neg h]
      exact le_refl _

lemma reinforceSeq_mono (m : Mem) (nows : List ℝ)
    (hcap : m.importance ≤ importanceCap) :
    m.access_count ≤ (reinforceSeq m nows).access_count ∧
      m.importance ≤ (reinforceSeq m nows).importance ∧
      m.last_accessed_at ≤ (reinforceSeq m nows).last_accessed_at ∧
      (reinforceSeq m nows).importance ≤ importanceCap := by
  induction nows generalizing m with
  | nil => exact ⟨le_refl _, le_refl _, le_refl _, hcap⟩
  | cons x xs ih =>
    have h1 := reinforceMem_mono m x hcap
    have h2 := ih (reinforceMem m x) h1.2.2.2
    simp only [reinforceSeq, List.foldl_cons] at h2 ⊢
    exact ⟨le_trans h1.1 h2.1, le_trans h1.2.1 h2.2.1,
      le_trans h1.2.2.1 h2.2.2.1, h2.2.2.2⟩

/-- C7: one reinforcement — a single atomic record update — increments
`access_count` by 1, moves `last_accessed_at` to `now` exactly when `now` is
strictly later (never backwards), and raises `importance` by the fixed
increment capped at `importance_cap`; along any sequence of reinforcements
of a Memory whose importance is within the cap (as every ingested Memory
is), none of the three fields ever decreases. -/
theorem reinforce_effects_monotone (m : Mem) (now : ℝ) (nows : List ℝ)
    (hcap : m.importance ≤ importanceCap) :
    (reinforceMem m now).access_count = m.access_count + 1 ∧
      (m.last_accessed_at < now →
        (reinforceMem m now).last_accessed_at = now) ∧
      (¬ m.last_accessed_at < now →
        (reinforceMem m now).last_accessed_at = m.last_accessed_at) ∧
      (reinforceMem m now).importance =
        min (m.importance + reinforceIncrement) importanceCap ∧
      m.access_count ≤ (reinforceSeq m nows).access_count ∧
      m.importance ≤ (reinforceSeq m nows).importance ∧
      m.last_accessed_at ≤ (reinforceSeq m nows).last_accessed_at := by
  have hs := reinforceSeq_mono m nows hcap
  refine ⟨rfl, ?_, ?_, rfl, hs.1, hs.2.1, hs.2.2.1⟩
  · intro h
    simp only [reinforceMem, if_pos h]
  · intro h
    simp only [reinforceMem, if_neg h]

/-- C7 witness: the concrete Memory `memW` reinforced at time 1, then along
the sequence of times 1 and 2. -/
theorem reinforce_effects_monotone_witness :
    memW.importance ≤ importanceCap ∧
      (reinforceMem memW 1).access_count = memW.access_count + 1 :=
  ⟨by norm_num [memW, importanceCap],
    (reinforce_effects_monotone memW 1 [1, 2]
      (by norm_num [memW, importanceCap])).1⟩

lemma resurfaceLE_total (now : ℝ) (a b : Mem) :
    resurfaceLE now a b ∨ resurfaceLE now b a := by
  rcases lt_trichotomy (scoreOf now a) (scoreOf now b) with h | h | h
  · exact Or.inl (Or.inl h)
  · rcases le_total a.created_at b.created_at with hc | hc
    · exact Or.inl (Or.inr ⟨h, hc⟩)
    · exact Or.inr (Or.inr ⟨h.symm, hc⟩)
  · exact Or.inr (Or.inl h)

lemma resurfaceLE_trans (now : ℝ) (a b c : Mem) (hab : resurfaceLE now a b)
    (hbc : resurfaceLE now b c) : resurfaceLE now a c := by
  rcases hab with h1 | ⟨h1, h1c⟩
  · rcases hbc with h2 | ⟨h2, _⟩
    · exact Or.inl (h1.trans h2)
    · exact Or.inl (h2 ▸ h1)
  · rcases hbc with h2 | ⟨h2, h2c⟩
    · exact Or.inl (by rw [h1]; exact h2)
    · exact Or.inr ⟨h1.trans h2, h1c.trans h2c⟩

open Classical in
/-- C6: the Resurfacing Selector returns only Memories of the evaluated set
that qualify — retention score strictly below the resurface threshold and
importance at least the importance floor (so never one below the floor) — at
most `N` of them, ordered by retention score ascending with ties broken by
created_at ascending; every qualifying Memory left out is at least as high
in that order as every selected one (the selection is the `N` lowest); and
the persisted store comes back unchanged. -/
theorem resurfaceSelect_policy (mems : List Mem) (now : ℝ) (N : ℕ) :
    (∀ m ∈ resurfaceSelect mems now N,
        m ∈ mems ∧ resurfaceImportanceFloor ≤ m.importance ∧
          scoreOf now m < resurfaceThreshold) ∧
      (resurfaceSelect mems now N).length ≤ N ∧
      List.Sorted (resurfaceLE now) (resurfaceSelect mems now N) ∧
      (∀ a ∈ resurfaceSelect mems now N, ∀ b ∈ mems,
        resurfaceQualifies now b → b ∉ resurfaceSelect mems now N →
          resurfaceLE now a b) ∧
      (resurfaceRun mems now N).2 = mems := by
  haveI : IsTotal Mem (resurfaceLE now) := ⟨resurfaceLE_total now⟩
  haveI : IsTrans Mem (resurfaceLE now) := ⟨resurfaceLE_trans now⟩
  have hsorted : List.Sorted (resurfaceLE now)
      ((mems.filter
        (fun m => decide (resurfaceQualifies now m))).insertionSort
          (resurfaceLE now)) :=
    List.sorted_insertionSort _ _
  refine ⟨?_, ?_, ?_, ?_, rfl⟩
  · intro m hm
    have hm' : m ∈ mems.filter (fun m => decide (resurfaceQualifies now m)) :=
      (List.mem_insertionSort _).1 (List.mem_of_mem_take hm)
    have h := List.mem_filter.1 hm'
    have hq : resurfaceQualifies now m := of_decide_eq_true h.2
    exact ⟨h.1, hq.2, hq.1⟩
  · exact List.length_take_le _ _
  · exact List.Pairwise.sublist (List.take_sublist _ _) hsorted
  · intro a ha b hb hq hbn
    have hbs : b ∈ (mems.filter
        (fun m => decide (resurfaceQualifies now m))).insertionSort
          (resurfaceLE now) :=
      (List.mem_insertionSort _).2 (List.mem_filter.2 ⟨hb, decide_eq_true hq⟩)
    have hsplit := List.take_append_drop N
      ((mems.filter
        (fun m => decide (resurfaceQualifies now m))).insertionSort
          (resurfaceLE now))
    have hbdrop : b ∈ ((mems.filter
        (fun m => decide (resurfaceQualifies now m))).insertionSort
          (resurfaceLE now)).drop N := by
      rcases List.mem_append.1 (hsplit ▸ hbs) with h | h
      · exact absurd h hbn
      · exact h
    exact hsorted.rel_of_mem_take_of_mem_drop ha hbdrop

lemma score_at_now (imp : ℝ) (ac : ℕ) (t : ℝ) :
    score imp ac t t = min imp importanceCap / importanceCap := by
  unfold score retention
  rw [sub_self, max_self, zero_div, neg_zero, Real.exp_zero, mul_one]

open Classical in
/-- C6 witness: a single qualifying Memory — importance 2, just accessed, so
retention 0.4 < 0.5 — is selected and reported as a member of the store. -/
theorem resurfaceSelect_policy_witness :
    memW ∈ [memW] ∧ resurfaceImportanceFloor ≤ memW.importance ∧
      scoreOf 0 memW < resurfaceThreshold :=
  (resurfaceSelect_policy [memW] 0 1).1 memW (by
    have hsc : scoreOf 0 memW = min 2 importanceCap / importanceCap :=
      score_at_now 2 0 0
    have hq : resurfaceQualifies 0 memW := by
      constructor
      · rw [hsc, min_eq_left (by norm_num [importanceCap] : (2:ℝ) ≤ importanceCap)]
        norm_num [importanceCap, resurfaceThreshold]
      · norm_num [memW, resurfaceImportanceFloor]
    have hfil : (fun m => decide (resurfaceQualifies (0:ℝ) m)) memW = true :=
      decide_eq_true hq
    simp [resurfaceSelect, hfil])
